import Mathlib

/-!
Verification of the iterator/filter subsystem of maxminddb-mcp.

This file shallowly embeds the Go sources `internal/filter/filter.go` and
`internal/iterator/manager.go` (the direct synchronous pull variant of the
iterator manager, the second variant in the concatenated source file: the
one the specification converges on) and proves or refutes the frozen claims
about them.

Modelling conventions:
- Go `any` values (as produced by JSON decoding and by MMDB record
  decoding) are modelled by the inductive `GoVal`; the nil interface value
  is the constructor `gnil`.  Distinct Go dynamic types compare unequal
  under `reflect.DeepEqual`, so integer values carry their width tag.
  Floating point values are outside the model: no claim depends on float
  arithmetic (`toFloat64` is modelled on the integer/string fragment).
- Go maps are modelled as association lists (`List (String × GoVal)`,
  first binding wins); the Go sources never build maps with duplicate
  keys.
- `netip.Prefix` (external standard library) is modelled by `Pfx4`, IPv4
  dotted-quad CIDR values, together with a concrete render/parse pair
  mirroring `Prefix.String` / `netip.ParsePrefix` on that fragment
  (the parser omits netip's rejection of leading zeros in octets, which
  no claim exercises).  The invalid zero `netip.Prefix` is modelled by
  `Option Pfx4 = none` wherever the Go code can hold one.
- `regexp` (external standard library) is modelled by a compile check on
  character-class bracket balance and literal-substring matching; only
  compile failure is load-bearing for the claims.
- The base64+JSON resume-token codec of the Go source is an injective
  encoding of the `ResumeToken` struct supplied by the standard library;
  it is modelled as the identity on the `ResumeToken` record.
- Registry bookkeeping, timestamps, locks and the random iterator ID
  (external entropy) are modelled away: no claim refers to them.
-/

/-! ## Go dynamic values -/

/-- Width tag of a Go signed integer dynamic type (`int`, `int8`, ...,
`int64`); `reflect.DeepEqual` distinguishes these types. -/
inductive IntW where
  | iw | i8 | i16 | i32 | i64
deriving DecidableEq, Repr

/-- Width tag of a Go unsigned integer dynamic type. -/
inductive UintW where
  | uw | u8 | u16 | u32 | u64
deriving DecidableEq, Repr

/-- A Go `any` value as it can reach the filter engine: the nil
interface, strings, booleans, tagged integers, slices (`[]any`) and
string-keyed maps (`map[string]any`).  Floating point values are not
modelled (see the header comment). -/
inductive GoVal where
  | gnil
  | gstr (s : String)
  | gbool (b : Bool)
  | gint (w : IntW) (n : Int)
  | guint (w : UintW) (n : Nat)
  | garr (l : List GoVal)
  | gmap (m : List (String × GoVal))

/-- A decoded record: Go `map[string]any`, modelled as an association
list (first binding wins). -/
abbrev RecordMap := List (String × GoVal)

/-- Go map lookup on the association-list model: a missing key yields the
nil interface value, exactly as `value, exists := m[k]` followed by
`if !exists { return nil }` does in `getNestedField`. -/
def mapLookup (m : RecordMap) (k : String) : Option GoVal :=
  match m with
  | [] => none
  | (k', v) :: rest => if k' = k then some v else mapLookup rest k

/-- `reflect.DeepEqual` on the modelled fragment.  Top level nil handling
follows Go: `DeepEqual(x, y)` returns `x == y` when either interface is
nil, so two nils are deeply equal and nil never equals a non-nil value.
On the rest it is structural equality (the model treats maps as ordered
association lists; no claim compares map values). -/
def deepEqual : GoVal → GoVal → Bool
  | .gnil, .gnil => true
  | .gstr s, .gstr t => s == t
  | .gbool a, .gbool b => a == b
  | .gint w n, .gint w' n' => w == w' && n == n'
  | .guint w n, .guint w' n' => w == w' && n == n'
  | .garr l, .garr l' => deepEqualL l l'
  | .gmap m, .gmap m' => deepEqualM m m'
  | _, _ => false
where
  deepEqualL : List GoVal → List GoVal → Bool
  | [], [] => true
  | a :: as, b :: bs => deepEqual a b && deepEqualL as bs
  | _, _ => false
  deepEqualM : List (String × GoVal) → List (String × GoVal) → Bool
  | [], [] => true
  | (k, a) :: as, (k', b) :: bs => k == k' && deepEqual a b && deepEqualM as bs
  | _, _ => false

/-! ## Modelled external libraries: regexp, strconv, strings.ToLower -/

/-- Scanner for the bracket-balance check of `regexpCompileOk`: the Bool
argument records whether the scan is inside a character class. -/
def regexScan : List Char → Bool → Bool
  | [], inClass => !inClass
  | c :: rest, inClass =>
    if inClass then regexScan rest (decide (c ≠ ']'))
    else regexScan rest (decide (c = '['))

/-- Modelled from the external Go standard library `regexp.Compile`
(success only): a pattern compiles iff its character-class brackets
balance.  This covers the fragment the claims exercise (for the claims,
only the existence of non-compiling patterns such as an unclosed bracket
matters). -/
def regexpCompileOk (s : String) : Bool := regexScan s.data false

/-- Whether the first character list is a leading segment of the
second (helper for the substring model). -/
def listLeads : List Char → List Char → Bool
  | [], _ => true
  | _ :: _, [] => false
  | a :: as, b :: bs => a == b && listLeads as bs

/-- Whether `pat` occurs contiguously inside the second list (model of
Go `strings.Contains` on the character level). -/
def listHasSub (pat : List Char) : List Char → Bool
  | [] => pat.isEmpty
  | b :: bs => listLeads pat (b :: bs) || listHasSub pat bs

/-- Modelled from the external Go standard library `regexp.MatchString`,
restricted to literal patterns: substring containment.  No claim depends
on match semantics, only on compile failure. -/
def regexpMatch (pattern s : String) : Bool := listHasSub pattern.data s.data

/-- ASCII lowercase of a character, modelling the fragment of Go
`strings.ToLower` the sources apply (operator and mode names are
ASCII). -/
def lowerChar (c : Char) : Char :=
  if 'A' ≤ c ∧ c ≤ 'Z' then Char.ofNat (c.toNat + 32) else c

/-- ASCII `strings.ToLower` on the modelled fragment. -/
def lowerStr (s : String) : String := String.mk (s.data.map lowerChar)

/-- One decimal digit character read back as a number (used by the
`strconv.ParseFloat` and `netip` models). -/
def charDigit (c : Char) : Nat := c.toNat - 48

/-- Whether a character is a decimal digit. -/
def isDigitCh (c : Char) : Bool := decide (48 ≤ c.toNat ∧ c.toNat ≤ 57)

/-- Value of a little-endian decimal digit list. -/
def digitsVal : List Nat → Nat
  | [] => 0
  | d :: ds => d + 10 * digitsVal ds

/-- Parse a non-empty all-digit character list as a natural number. -/
def parseNatChars (l : List Char) : Option Nat :=
  if l.isEmpty then none
  else if l.all isDigitCh then some (digitsVal ((l.map charDigit).reverse))
  else none

/-- Character-level split used to model `strings.Split` (keeps empty
components, never returns an empty list). -/
def splitChar (sep : Char) : List Char → List (List Char)
  | [] => [[]]
  | c :: rest =>
    match splitChar sep rest with
    | [] => [[]]
    | g :: gs => if c = sep then [] :: g :: gs else (c :: g) :: gs

/-- Modelled from the external Go standard library `strconv.ParseFloat`,
restricted to (optionally negated) decimal integer literals; the model
represents float64 values by exact integers, which suffices because no
claim depends on floating point arithmetic. -/
def parseFloat64 (s : String) : Option Int :=
  match s.data with
  | '-' :: rest => (parseNatChars rest).map (fun n => -(n : Int))
  | l => (parseNatChars l).map (fun n => (n : Int))

/-! ## The filter engine: `internal/filter/filter.go` -/

namespace filter

/-- A single filter condition (`filter.Filter`). -/
structure Filter where
  Value : GoVal
  Field : String
  Operator : String

/-- `filter.ModeAnd`. -/
def ModeAnd : String := "and"

/-- `filter.ModeOr`. -/
def ModeOr : String := "or"

/-- `filter.SupportedOperators`. -/
def SupportedOperators : List String :=
  ["equals", "not_equals", "in", "not_in", "contains", "regex",
   "greater_than", "greater_than_or_equal", "less_than",
   "less_than_or_equal", "exists"]

/-- The filter engine (`filter.Engine`); the `Mode` string type is
modelled as `String`. -/
structure Engine where
  mode : String
  filters : List Filter

/-- `filter.New`: an empty mode string defaults to AND. -/
def Engine.New (filters : List Filter) (mode : String) : Engine :=
  { mode := if mode = "" then ModeAnd else mode, filters := filters }

/-- `getNestedField`, inner loop over the split dot-path.  The Go loop
returns the value at the last part, descends through nested maps
otherwise, and falls out to `return nil` only when the parts list is
empty (which `strings.Split` never produces). -/
def getNestedFieldGo : List String → RecordMap → GoVal
  | [], _ => .gnil
  | [p], m =>
    match mapLookup m p with
    | none => .gnil
    | some v => v
  | p :: ps, m =>
    match mapLookup m p with
    | none => .gnil
    | some v =>
      match v with
      | .gmap m2 => getNestedFieldGo ps m2
      | _ => .gnil

/-- `getNestedField`: retrieves a nested field from a map using dot
notation; any missing key or non-map intermediate yields the nil
interface value. -/
def getNestedField (data : RecordMap) (fieldPath : String) : GoVal :=
  getNestedFieldGo ((splitChar '.' fieldPath.data).map (fun l => String.mk l)) data

/-- `compareEqual`: `reflect.DeepEqual` on the two values. -/
def compareEqual (fieldValue filterValue : GoVal) : Bool :=
  deepEqual fieldValue filterValue

/-- `containsValue`: the filter value must be an array, and the field
value must be deeply equal to one of its elements. -/
def containsValue (filterValue fieldValue : GoVal) : Bool :=
  match filterValue with
  | .garr filterArray => filterArray.any (fun item => compareEqual fieldValue item)
  | _ => false

/-- `containsString`: both values must be strings and the field string
must contain the filter string as a substring. -/
def containsString (fieldValue filterValue : GoVal) : Bool :=
  match fieldValue, filterValue with
  | .gstr fieldStr, .gstr filterStr => listHasSub filterStr.data fieldStr.data
  | _, _ => false

/-- `matchesRegex`: both values must be strings, the pattern must
compile, and the field string must match it. -/
def matchesRegex (fieldValue filterValue : GoVal) : Bool :=
  match fieldValue, filterValue with
  | .gstr fieldStr, .gstr regexStr =>
    if regexpCompileOk regexStr then regexpMatch regexStr fieldStr else false
  | _, _ => false

/-- `toFloat64` on the modelled fragment: tagged integers and numeric
strings coerce, everything else (including the nil interface value) is a
conversion error, modelled as `none`. -/
def toFloat64 : GoVal → Option Int
  | .gint _ n => some n
  | .guint _ n => some (n : Int)
  | .gstr s => parseFloat64 s
  | _ => none

/-- `compareGreater`: both sides must coerce, then numeric greater. -/
def compareGreater (fieldValue filterValue : GoVal) : Bool :=
  match toFloat64 fieldValue, toFloat64 filterValue with
  | some a, some b => decide (a > b)
  | _, _ => false

/-- `compareLess`. -/
def compareLess (fieldValue filterValue : GoVal) : Bool :=
  match toFloat64 fieldValue, toFloat64 filterValue with
  | some a, some b => decide (a < b)
  | _, _ => false

/-- `compareGreaterEqual`. -/
def compareGreaterEqual (fieldValue filterValue : GoVal) : Bool :=
  match toFloat64 fieldValue, toFloat64 filterValue with
  | some a, some b => decide (a ≥ b)
  | _, _ => false

/-- `compareLessEqual`. -/
def compareLessEqual (fieldValue filterValue : GoVal) : Bool :=
  match toFloat64 fieldValue, toFloat64 filterValue with
  | some a, some b => decide (a ≤ b)
  | _, _ => false

/-- `Engine.evaluateFilter`: evaluate a single filter against the data;
an unknown operator never matches. -/
def evaluateFilter (filter : Filter) (data : RecordMap) : Bool :=
  let fieldValue := getNestedField data filter.Field
  match filter.Operator with
  | "equals" => compareEqual fieldValue filter.Value
  | "not_equals" => !compareEqual fieldValue filter.Value
  | "in" => containsValue filter.Value fieldValue
  | "not_in" => !containsValue filter.Value fieldValue
  | "contains" => containsString fieldValue filter.Value
  | "regex" => matchesRegex fieldValue filter.Value
  | "greater_than" => compareGreater fieldValue filter.Value
  | "greater_than_or_equal" => compareGreaterEqual fieldValue filter.Value
  | "less_than" => compareLess fieldValue filter.Value
  | "less_than_or_equal" => compareLessEqual fieldValue filter.Value
  | "exists" =>
    let exi := match fieldValue with | .gnil => false | _ => true
    match filter.Value with
    | .gbool boolValue => exi == boolValue
    | _ => exi
  | _ => false

/-- `Engine.Matches`: no filters means everything matches; AND mode
requires every filter to match, OR mode at least one; an unrecognized
mode never matches. -/
def Engine.Matches (e : Engine) (data : RecordMap) : Bool :=
  if e.filters.length = 0 then true
  else if e.mode = ModeAnd then e.filters.all (fun f => evaluateFilter f data)
  else if e.mode = ModeOr then e.filters.any (fun f => evaluateFilter f data)
  else false

/-- `filter.Validate`, one filter at a time (the Go loop, index dropped
from the error text). -/
def validateGo : List Filter → Except String Unit
  | [] => .ok ()
  | f :: rest =>
    if f.Field = "" then .error "field cannot be empty"
    else if !(SupportedOperators.contains f.Operator) then .error "unsupported operator"
    else
      match
        (if f.Operator = "in" ∨ f.Operator = "not_in" then
          match f.Value with
          | .garr _ => Except.ok ()
          | _ => Except.error "operator requires an array value"
        else if f.Operator = "regex" then
          match f.Value with
          | .gstr regexStr =>
            if regexpCompileOk regexStr then Except.ok ()
            else Except.error "invalid regex"
          | _ => Except.error "regex operator requires a string value"
        else if f.Operator = "exists" then
          match f.Value with
          | .gbool _ => Except.ok ()
          | _ => Except.error "exists operator requires a boolean value"
        else Except.ok ()) with
      | .error e => .error e
      | .ok () => validateGo rest

/-- `filter.Validate`: construction-time validation of a filter list. -/
def Validate (filters : List Filter) : Except String Unit := validateGo filters

end filter

/-! ## CIDR values: model of the external `net/netip` library

The iterator manager stores `netip.Prefix` values and serializes them
through `Prefix.String` / `netip.ParsePrefix`.  The model covers IPv4
dotted-quad prefixes. -/

/-- Little-endian decimal digits of `n` (fuelled so that the definition
is structural and kernel-reducible); `natDigits 0 = []`. -/
def natDigitsAux : Nat → Nat → List Nat
  | 0, _ => []
  | _ + 1, 0 => []
  | fuel + 1, n + 1 => (n + 1) % 10 :: natDigitsAux fuel ((n + 1) / 10)

/-- Little-endian decimal digits of `n`. -/
def natDigits (n : Nat) : List Nat := natDigitsAux n n

/-- The character of a decimal digit. -/
def digitChar (d : Nat) : Char := Char.ofNat (48 + d)

/-- Decimal rendering of a natural number as characters. -/
def natChars (n : Nat) : List Char :=
  if n = 0 then ['0'] else ((natDigits n).map digitChar).reverse

/-- An IPv4 CIDR value: four octets and a mask length.  Models a valid
IPv4 `netip.Prefix`; the invalid zero `netip.Prefix` is modelled by
`Option Pfx4 = none` at its use sites. -/
structure Pfx4 where
  a : Nat
  b : Nat
  c : Nat
  d : Nat
  maskLen : Nat
deriving DecidableEq, Repr

/-- Well-formedness of a `Pfx4`: octets below 256, mask length at most
32 (every prefix `netip.ParsePrefix` produces satisfies this). -/
def Pfx4.Valid (p : Pfx4) : Prop :=
  p.a < 256 ∧ p.b < 256 ∧ p.c < 256 ∧ p.d < 256 ∧ p.maskLen ≤ 32

instance (p : Pfx4) : Decidable p.Valid := by unfold Pfx4.Valid; infer_instance

/-- The dotted-quad address part of `Prefix.String`. -/
def Pfx4.ipChars (p : Pfx4) : List Char :=
  natChars p.a ++ ('.' :: (natChars p.b ++ ('.' :: (natChars p.c ++
    ('.' :: natChars p.d)))))

/-- Characters of `Prefix.String` for an IPv4 prefix:
`a.b.c.d/maskLen`. -/
def Pfx4.renderChars (p : Pfx4) : List Char :=
  p.ipChars ++ ('/' :: natChars p.maskLen)

/-- Model of `netip.Prefix.String` on IPv4 prefixes. -/
def Pfx4.render (p : Pfx4) : String := String.mk p.renderChars

/-- Model of `netip.ParsePrefix` on IPv4 prefixes (character level):
split on the single slash, split the address on dots, parse the four
octets and the mask length, and range-check them.  Unlike `netip` the
model accepts leading zeros in components; no claim exercises that
corner. -/
def parsePfxChars (l : List Char) : Option Pfx4 :=
  match splitChar '/' l with
  | [ipPart, maskPart] =>
    match splitChar '.' ipPart with
    | [sa, sb, sc, sd] =>
      match parseNatChars sa, parseNatChars sb, parseNatChars sc,
          parseNatChars sd, parseNatChars maskPart with
      | some a, some b, some c, some d, some k =>
        if a < 256 ∧ b < 256 ∧ c < 256 ∧ d < 256 ∧ k ≤ 32 then
          some ⟨a, b, c, d, k⟩
        else none
      | _, _, _, _, _ => none
    | _ => none
  | _ => none

/-- Model of `netip.ParsePrefix` on IPv4 prefixes. -/
def parsePfx (s : String) : Option Pfx4 := parsePfxChars s.data

/-! ### Round trip of the CIDR codec -/

theorem digitsVal_natDigitsAux (fuel : Nat) : ∀ n : Nat, n ≤ fuel →
    digitsVal (natDigitsAux fuel n) = n := by
  induction fuel with
  | zero =>
    intro n h
    interval_cases n
    rfl
  | succ fuel ih =>
    intro n h
    match n with
    | 0 => rfl
    | m + 1 =>
      have hdiv : (m + 1) / 10 ≤ fuel := by omega
      simp only [natDigitsAux, digitsVal, ih _ hdiv]
      omega

theorem digitsVal_natDigits (n : Nat) : digitsVal (natDigits n) = n :=
  digitsVal_natDigitsAux n n le_rfl

theorem natDigitsAux_lt (fuel : Nat) : ∀ n d : Nat, d ∈ natDigitsAux fuel n → d < 10 := by
  induction fuel with
  | zero => intro n d hd; simp [natDigitsAux] at hd
  | succ fuel ih =>
    intro n d hd
    match n with
    | 0 => simp [natDigitsAux] at hd
    | m + 1 =>
      simp only [natDigitsAux, List.mem_cons] at hd
      rcases hd with h | h
      · omega
      · exact ih _ _ h

theorem natDigits_lt {n d : Nat} (hd : d ∈ natDigits n) : d < 10 :=
  natDigitsAux_lt n n d hd

theorem natDigits_ne_nil {n : Nat} (h : n ≠ 0) : natDigits n ≠ [] := by
  match n, h with
  | m + 1, _ => simp [natDigits, natDigitsAux]

theorem digitChar_toNat {d : Nat} (h : d < 10) : (digitChar d).toNat = 48 + d := by
  interval_cases d <;> decide

theorem charDigit_digitChar {d : Nat} (h : d < 10) : charDigit (digitChar d) = d := by
  interval_cases d <;> decide

theorem isDigitCh_digitChar {d : Nat} (h : d < 10) : isDigitCh (digitChar d) = true := by
  interval_cases d <;> decide

theorem natChars_digit {n : Nat} {c : Char} (hc : c ∈ natChars n) : isDigitCh c = true := by
  unfold natChars at hc
  by_cases h : n = 0
  · subst h; simp at hc; subst hc; decide
  · simp only [if_neg h, List.mem_reverse, List.mem_map] at hc
    obtain ⟨d, hd, rfl⟩ := hc
    exact isDigitCh_digitChar (natDigits_lt hd)

theorem natChars_ne_dot {n : Nat} {c : Char} (hc : c ∈ natChars n) : c ≠ '.' := by
  intro h
  subst h
  have := natChars_digit hc
  simp [isDigitCh] at this

theorem natChars_ne_slash {n : Nat} {c : Char} (hc : c ∈ natChars n) : c ≠ '/' := by
  intro h
  subst h
  have := natChars_digit hc
  simp [isDigitCh] at this

theorem parseNatChars_natChars (n : Nat) : parseNatChars (natChars n) = some n := by
  by_cases h : n = 0
  · subst h; rfl
  · unfold parseNatChars
    have hne : natChars n ≠ [] := by
      unfold natChars
      simp only [if_neg h]
      intro hcontra
      exact natDigits_ne_nil h (by simpa using congrArg List.reverse hcontra)
    rw [if_neg (by simpa [List.isEmpty_iff] using hne)]
    rw [if_pos (by simp only [List.all_eq_true]; intro c hc; exact natChars_digit hc)]
    congr 1
    unfold natChars
    rw [if_neg h]
    rw [List.map_reverse, List.reverse_reverse, List.map_map]
    have hmap : (natDigits n).map (charDigit ∘ digitChar) = (natDigits n).map id :=
      List.map_congr_left (fun d hd => charDigit_digitChar (natDigits_lt hd))
    rw [hmap, List.map_id, digitsVal_natDigits]

theorem splitChar_ne_nil (sep : Char) (l : List Char) : splitChar sep l ≠ [] := by
  cases l with
  | nil => simp [splitChar]
  | cons c rest =>
    unfold splitChar
    match hrec : splitChar sep rest with
    | [] => simp
    | g :: gs =>
      by_cases hsep : c = sep <;> simp [hsep]

theorem splitChar_no_sep {sep : Char} {l : List Char} (h : ∀ c ∈ l, c ≠ sep) :
    splitChar sep l = [l] := by
  induction l with
  | nil => rfl
  | cons c rest ih =>
    have hrest : splitChar sep rest = [rest] := ih (fun x hx => h x (List.mem_cons_of_mem _ hx))
    have hc : c ≠ sep := h c (List.mem_cons_self _ _)
    simp [splitChar, hrest, hc]

theorem splitChar_push {sep : Char} {xs ys : List Char} (h : ∀ c ∈ xs, c ≠ sep) :
    splitChar sep (xs ++ sep :: ys) = xs :: splitChar sep ys := by
  induction xs with
  | nil =>
    simp only [List.nil_append]
    rcases hrec : splitChar sep ys with _ | ⟨g, gs⟩
    · exact absurd hrec (splitChar_ne_nil sep ys)
    · simp [splitChar, hrec]
  | cons x xs ih =>
    have hxs : splitChar sep (xs ++ sep :: ys) = xs :: splitChar sep ys :=
      ih (fun c hc => h c (List.mem_cons_of_mem _ hc))
    have hx : x ≠ sep := h x (List.mem_cons_self _ _)
    simp [splitChar, hxs, hx]

theorem splitChar_renderChars (p : Pfx4) :
    splitChar '/' p.renderChars = [p.ipChars, natChars p.maskLen] := by
  have hip : ∀ c ∈ p.ipChars, c ≠ '/' := by
    intro c hcmem
    unfold Pfx4.ipChars at hcmem
    simp only [List.mem_append, List.mem_cons] at hcmem
    rcases hcmem with h1 | h1 | h1 | h1 | h1 | h1 | h1
    · exact natChars_ne_slash h1
    · subst h1; decide
    · exact natChars_ne_slash h1
    · subst h1; decide
    · exact natChars_ne_slash h1
    · subst h1; decide
    · exact natChars_ne_slash h1
  unfold Pfx4.renderChars
  rw [splitChar_push hip, splitChar_no_sep (fun c hcm => natChars_ne_slash hcm)]

theorem splitChar_ipChars (p : Pfx4) :
    splitChar '.' p.ipChars = [natChars p.a, natChars p.b, natChars p.c, natChars p.d] := by
  unfold Pfx4.ipChars
  rw [splitChar_push (fun c hcm => natChars_ne_dot hcm),
    splitChar_push (fun c hcm => natChars_ne_dot hcm),
    splitChar_push (fun c hcm => natChars_ne_dot hcm),
    splitChar_no_sep (fun c hcm => natChars_ne_dot hcm)]

theorem parsePfx_render {p : Pfx4} (h : p.Valid) : parsePfx p.render = some p := by
  obtain ⟨ha, hb, hc, hd, hk⟩ := h
  show parsePfxChars p.renderChars = some p
  unfold parsePfxChars
  rw [splitChar_renderChars]
  dsimp only
  rw [splitChar_ipChars]
  dsimp only
  rw [parseNatChars_natChars, parseNatChars_natChars, parseNatChars_natChars,
    parseNatChars_natChars, parseNatChars_natChars]
  dsimp only
  rw [if_pos ⟨ha, hb, hc, hd, hk⟩]

/-! ## The iterator manager: `internal/iterator/manager.go`

This embeds the direct synchronous pull variant of the manager (the
second `Manager` in the concatenated source, the variant the
specification converges on).  The registry map, the mutexes, the
timestamps and the cleanup goroutine carry no claim and are modelled
away; the random iterator ID (external entropy) is modelled by an
always-succeeding supply. -/

namespace iterator

/-- `ManagedIterator`: the mutable state of one iterator.  The
`Reader` is modelled by the entry list passed to `Iterate`, and the
timestamps and per-iterator lock are modelled away. -/
structure ManagedIterator where
  FilterEngine : Option filter.Engine
  Network : Pfx4
  LastNetwork : Option Pfx4
  FilterMode : String
  ID : String
  Database : String
  Filters : List filter.Filter
  Processed : Int
  Matched : Int

/-- `ResumeToken`: the JSON object carried by a resume token.  The Go
source serializes this struct with `encoding/json` and base64; that
injective external codec is modelled as the identity on this record. -/
structure ResumeToken where
  LastNetwork : String
  Database : String
  Network : String
  FilterMode : String
  Filters : List filter.Filter
  Processed : Int
  Matched : Int

/-- `NetworkResult`: a single network with its decoded record. -/
structure NetworkResult where
  Data : RecordMap
  Network : Pfx4

/-- `IterationResult`: one batch. -/
structure IterationResult where
  IteratorID : String
  ResumeToken : ResumeToken
  Results : List NetworkResult
  TotalProcessed : Int
  TotalMatched : Int
  EstimatedRemaining : Int
  HasMore : Bool

/-- One `(sub-network, record)` pair yielded by the traversal
capability `Reader.NetworksWithin`; `record = none` models an entry
whose `result.Decode(&record)` call fails. -/
structure Entry where
  pfx : Pfx4
  record : Option RecordMap

/-- `generateID` draws 16 bytes from the entropy source and
base64url-encodes them.  Entropy is external; the model is an
always-succeeding supply with a fixed value (no claim concerns IDs or
entropy failure). -/
def generateID : String := ""

/-- `normalizeFilterMode`: normalize to `and` or `or`, defaulting to
`and` for unknown values. -/
def normalizeFilterMode (mode : String) : String :=
  if lowerStr mode = filter.ModeAnd then filter.ModeAnd
  else if lowerStr mode = filter.ModeOr then filter.ModeOr
  else filter.ModeAnd

/-- `normalizeOperator`: map the short aliases to canonical operator
names, lowercasing everything else. -/
def normalizeOperator (op : String) : String :=
  if lowerStr op = "eq" then "equals"
  else if lowerStr op = "ne" then "not_equals"
  else if lowerStr op = "gt" then "greater_than"
  else if lowerStr op = "lt" then "less_than"
  else if lowerStr op = "gte" then "greater_than_or_equal"
  else if lowerStr op = "lte" then "less_than_or_equal"
  else lowerStr op

/-- `Manager.createIteratorNoStart`: normalize the mode, normalize the
operator aliases and build a filter engine when the filter list is
non-empty, and register the new iterator (registry insertion and
timestamps modelled away). -/
def createIteratorNoStart (database : String) (network : Pfx4)
    (filters : List filter.Filter) (filterMode : String) : ManagedIterator :=
  let normalizedMode := normalizeFilterMode filterMode
  let norm := filters.map (fun f => { f with Operator := normalizeOperator f.Operator })
  let filterEngine : Option filter.Engine :=
    if filters.length > 0 then some (filter.Engine.New norm normalizedMode) else none
  let filters' := if filters.length > 0 then norm else filters
  { ID := generateID, Database := database, Network := network,
    Filters := filters', FilterMode := normalizedMode,
    FilterEngine := filterEngine, LastNetwork := none,
    Processed := 0, Matched := 0 }

/-- `Manager.CreateIterator`: delegates to `createIteratorNoStart`. -/
def CreateIterator (database : String) (network : Pfx4)
    (filters : List filter.Filter) (filterMode : String) : ManagedIterator :=
  createIteratorNoStart database network filters filterMode

/-- `Manager.generateResumeToken`: snapshot the iterator's binding,
counters and position; the last-seen network is rendered only when it
is a valid prefix, otherwise the field stays empty. -/
def generateResumeToken (iterator : ManagedIterator) : ResumeToken :=
  { Database := iterator.Database,
    Network := iterator.Network.render,
    Filters := iterator.Filters,
    FilterMode := iterator.FilterMode,
    Processed := iterator.Processed,
    Matched := iterator.Matched,
    LastNetwork :=
      match iterator.LastNetwork with
      | some p => p.render
      | none => "" }

/-- `Manager.ResumeIterator`: decode the token (the base64+JSON layer
is the identity at this level of modelling), parse the network, build a
fresh iterator through `createIteratorNoStart`, restore the counters,
and restore the last-seen network when the token carries one. -/
def ResumeIterator (token : ResumeToken) : Except String ManagedIterator :=
  match parsePfx token.Network with
  | none => .error "invalid network in resume token"
  | some network =>
    let iterator := createIteratorNoStart token.Database network token.Filters token.FilterMode
    let iterator := { iterator with Processed := token.Processed, Matched := token.Matched }
    if token.LastNetwork ≠ "" then
      match parsePfx token.LastNetwork with
      | none => .error "invalid last network in resume token"
      | some lastNetwork => .ok { iterator with LastNetwork := some lastNetwork }
    else .ok iterator

/-- The mutable state of the `Iterate` pull loop: the iterator's
counters and position, the batch built so far, the resume-skip flag and
the continuation flag. -/
structure IterState where
  processed : Int
  matched : Int
  lastNetwork : Option Pfx4
  results : List NetworkResult
  skipping : Bool
  hasMore : Bool

/-- One pass of the body of the `Iterate` pull loop for entry `e`; the
Bool result records whether the loop moves on to the next entry
(`false` models `break`).  The first branch is the resume-point
handling: while skipping, every entry other than the anchor is passed
over; the anchor itself clears the flag and is then processed like any
other entry (the source comment reads `include LastNetwork again for
continuity`). -/
def iterBody (skipUntil : Option Pfx4) (filterEngine : Option filter.Engine)
    (maxResults : Int) (e : Entry) (st : IterState) : IterState × Bool :=
  if st.skipping ∧ some e.pfx ≠ skipUntil then (st, true)
  else
    let st1 := { st with skipping := false, processed := st.processed + 1 }
    match e.record with
    | none => ({ st1 with lastNetwork := some e.pfx }, true)
    | some record =>
      let st2 := { st1 with lastNetwork := some e.pfx }
      if (match filterEngine with
          | some fe => !(fe.Matches record)
          | none => false) then
        if (st2.results.length : Int) ≥ maxResults then ({ st2 with hasMore := true }, false)
        else (st2, true)
      else
        let st3 :=
          { st2 with
            matched := st2.matched + 1
            results := st2.results ++ [⟨record, e.pfx⟩] }
        if (st3.results.length : Int) ≥ maxResults then ({ st3 with hasMore := true }, false)
        else (st3, true)

/-- The `Iterate` pull loop over the entries the traversal yields. -/
def iterLoop (skipUntil : Option Pfx4) (filterEngine : Option filter.Engine)
    (maxResults : Int) : List Entry → IterState → IterState
  | [], st => st
  | e :: rest, st =>
    match iterBody skipUntil filterEngine maxResults e st with
    | (st', true) => iterLoop skipUntil filterEngine maxResults rest st'
    | (st', false) => st'

/-- `Manager.Iterate`: performs one iteration batch.  `entries` models
the sequence `iterator.Reader.NetworksWithin(iterator.Network)` yields
(the external traversal capability restarts from scratch on every
call).  A nil iterator is a hard error; otherwise the loop runs, the
iterator's counters and position are updated, and a fresh resume token
is generated from the post-batch state. -/
def Iterate (iterator : Option ManagedIterator) (entries : List Entry)
    (maxResults : Int) : Except String (IterationResult × ManagedIterator) :=
  match iterator with
  | none => .error "iterator cannot be nil"
  | some iterator =>
    let skipUntil := iterator.LastNetwork
    let st0 : IterState :=
      { processed := iterator.Processed, matched := iterator.Matched,
        lastNetwork := iterator.LastNetwork, results := [],
        skipping := skipUntil.isSome, hasMore := false }
    let st := iterLoop skipUntil iterator.FilterEngine maxResults entries st0
    let iterator' :=
      { iterator with
        Processed := st.processed
        Matched := st.matched
        LastNetwork := st.lastNetwork }
    let resumeToken := generateResumeToken iterator'
    .ok ({ IteratorID := iterator'.ID, ResumeToken := resumeToken,
           Results := st.results, TotalProcessed := st.processed,
           TotalMatched := st.matched, EstimatedRemaining := 0,
           HasMore := st.hasMore }, iterator')

end iterator

/-! ## Claims -/

/-- C4: for every record R and for both combination modes ALL and ANY,
evaluating an empty predicate set against R returns true (an empty
predicate set always matches, vacuously). -/
theorem c4_empty_predicates_match (data : RecordMap) :
    (filter.Engine.mk filter.ModeAnd []).Matches data = true ∧
    (filter.Engine.mk filter.ModeOr []).Matches data = true :=
  ⟨rfl, rfl⟩

/-- C5 fails as stated: the `equals` operator with the JSON null value
(the nil interface) does match an absent field, because
`reflect.DeepEqual(nil, nil)` is true.  The record is empty, so the
dot-path `x` resolves to absent, and the predicate
`{field: x, operator: equals, value: null}` evaluates to a match. -/
theorem c5_counterexample :
    filter.getNestedField [] "x" = GoVal.gnil ∧
    filter.evaluateFilter { Value := GoVal.gnil, Field := "x", Operator := "equals" } [] = true :=
  ⟨rfl, rfl⟩

/-- Helper for C5: `deepEqual` against the nil interface value is true
only for nil itself. -/
theorem deepEqual_gnil_left (v : GoVal) : deepEqual .gnil v = true ↔ v = .gnil := by
  cases v <;> simp [deepEqual]

/-- C5 amended: `exists` with value `false` matches precisely the absent
case; against an absent field, `equals` matches only the null value,
`in` matches only an array containing null, and `contains`, `regex` and
the four numeric comparisons never match. -/
theorem c5_absence_semantics (data : RecordMap) (fld : String) (v : GoVal)
    (habsent : filter.getNestedField data fld = GoVal.gnil) :
    (∀ (data2 : RecordMap) (fld2 : String),
      filter.evaluateFilter { Value := .gbool false, Field := fld2, Operator := "exists" } data2 = true ↔
        filter.getNestedField data2 fld2 = GoVal.gnil) ∧
    (v ≠ .gnil →
      filter.evaluateFilter { Value := v, Field := fld, Operator := "equals" } data = false) ∧
    ((∀ l, v = .garr l → GoVal.gnil ∉ l) →
      filter.evaluateFilter { Value := v, Field := fld, Operator := "in" } data = false) ∧
    (filter.evaluateFilter { Value := v, Field := fld, Operator := "contains" } data = false) ∧
    (filter.evaluateFilter { Value := v, Field := fld, Operator := "regex" } data = false) ∧
    (filter.evaluateFilter { Value := v, Field := fld, Operator := "greater_than" } data = false) ∧
    (filter.evaluateFilter { Value := v, Field := fld, Operator := "greater_than_or_equal" } data = false) ∧
    (filter.evaluateFilter { Value := v, Field := fld, Operator := "less_than" } data = false) ∧
    (filter.evaluateFilter { Value := v, Field := fld, Operator := "less_than_or_equal" } data = false) := by
  refine ⟨?_, ?_, ?_, ?_, ?_, ?_, ?_, ?_, ?_⟩
  · intro data2 fld2
    simp only [filter.evaluateFilter]
    cases hfv : filter.getNestedField data2 fld2 <;> simp
  · intro hv
    simp only [filter.evaluateFilter, habsent, filter.compareEqual]
    cases v <;> simp [deepEqual] at hv ⊢
  · intro hv
    simp only [filter.evaluateFilter, habsent, filter.containsValue]
    cases v with
    | garr l =>
      have hnil : GoVal.gnil ∉ l := hv l rfl
      rw [List.any_eq_false]
      intro item hitem hcmp
      simp only [filter.compareEqual] at hcmp
      exact hnil (((deepEqual_gnil_left item).mp hcmp) ▸ hitem)
    | gnil => simp
    | gstr s => simp
    | gbool b => simp
    | gint w n => simp
    | guint w n => simp
    | gmap m => simp
  · simp [filter.evaluateFilter, habsent, filter.containsString]
  · simp only [filter.evaluateFilter, habsent, filter.matchesRegex]
  · simp [filter.evaluateFilter, habsent, filter.compareGreater, filter.toFloat64]
  · simp [filter.evaluateFilter, habsent, filter.compareGreaterEqual, filter.toFloat64]
  · simp [filter.evaluateFilter, habsent, filter.compareLess, filter.toFloat64]
  · simp [filter.evaluateFilter, habsent, filter.compareLessEqual, filter.toFloat64]

/-- Witness for the C5 amended theorem at a concrete absent field. -/
theorem c5_absence_semantics_witness :
    filter.getNestedField [] "x" = GoVal.gnil ∧
    (filter.evaluateFilter { Value := .gstr "US", Field := "x", Operator := "equals" } [] = false ∧
     filter.evaluateFilter { Value := .gbool false, Field := "x", Operator := "exists" } [] = true) := by
  refine ⟨rfl, ?_, ?_⟩
  · exact (c5_absence_semantics [] "x" (.gstr "US") rfl).2.1 (by intro h; cases h)
  · exact ((c5_absence_semantics [] "x" (.gstr "US") rfl).1 [] "x").mpr rfl

/-- Whether a value is a Go `[]any` (helper for C7). -/
def isArrVal : GoVal → Bool
  | .garr _ => true
  | _ => false

/-- Whether a value is a Go `bool` (helper for C7). -/
def isBoolVal : GoVal → Bool
  | .gbool _ => true
  | _ => false

/-- Whether a value is unusable as a regex pattern: not a string, or a
string that does not compile (helper for C7). -/
def regexValBad : GoVal → Bool
  | .gstr s => !(regexpCompileOk s)
  | _ => true

/-- The invalid-predicate condition stated by the claim (written from
the specification sentence, to be compared with `filter.Validate`):
empty field, unsupported operator, in/not_in without an array value,
regex without a compiling string value, exists without a boolean
value. -/
def specInvalidFilter (f : filter.Filter) : Bool :=
  (f.Field == "") ||
  !(filter.SupportedOperators.contains f.Operator) ||
  ((f.Operator == "in" || f.Operator == "not_in") && !(isArrVal f.Value)) ||
  ((f.Operator == "regex") && regexValBad f.Value) ||
  ((f.Operator == "exists") && !(isBoolVal f.Value))

/-- The head step of `validateGo` succeeds on `f :: rest` exactly when
`f` is not invalid and the tail validates. -/
theorem validateGo_cons_ok (f : filter.Filter) (rest : List filter.Filter) :
    filter.validateGo (f :: rest) = .ok () ↔
      specInvalidFilter f = false ∧ filter.validateGo rest = .ok () := by
  by_cases hf : f.Field = ""
  · simp [filter.validateGo, specInvalidFilter, hf]
  · by_cases hs : filter.SupportedOperators.contains f.Operator
    · by_cases hin : f.Operator = "in" ∨ f.Operator = "not_in"
      · have hre : f.Operator ≠ "regex" := by rcases hin with h | h <;> simp [h]
        have hex : f.Operator ≠ "exists" := by rcases hin with h | h <;> simp [h]
        cases hv : f.Value <;>
          rcases hin with h | h <;>
          simp +decide [filter.validateGo, specInvalidFilter, filter.SupportedOperators,
            hf, hs, h, hre, hex, isArrVal, hv]
      · push_neg at hin
        by_cases hre : f.Operator = "regex"
        · cases hv : f.Value with
          | gstr s =>
            by_cases hok : regexpCompileOk s <;>
              simp +decide [filter.validateGo, specInvalidFilter, filter.SupportedOperators,
                hf, hs, hin.1, hin.2, hre, hv, regexValBad, hok]
          | gnil =>
            simp +decide [filter.validateGo, specInvalidFilter, filter.SupportedOperators,
              hf, hs, hin.1, hin.2, hre, hv, regexValBad]
          | gbool b =>
            simp +decide [filter.validateGo, specInvalidFilter, filter.SupportedOperators,
              hf, hs, hin.1, hin.2, hre, hv, regexValBad]
          | gint w n =>
            simp +decide [filter.validateGo, specInvalidFilter, filter.SupportedOperators,
              hf, hs, hin.1, hin.2, hre, hv, regexValBad]
          | guint w n =>
            simp +decide [filter.validateGo, specInvalidFilter, filter.SupportedOperators,
              hf, hs, hin.1, hin.2, hre, hv, regexValBad]
          | garr l =>
            simp +decide [filter.validateGo, specInvalidFilter, filter.SupportedOperators,
              hf, hs, hin.1, hin.2, hre, hv, regexValBad]
          | gmap m =>
            simp +decide [filter.validateGo, specInvalidFilter, filter.SupportedOperators,
              hf, hs, hin.1, hin.2, hre, hv, regexValBad]
        · by_cases hex : f.Operator = "exists"
          · cases hv : f.Value <;>
              simp +decide [filter.validateGo, specInvalidFilter, filter.SupportedOperators,
                hf, hs, hin.1, hin.2, hre, hex, hv, isBoolVal]
          · have hcon : (f.Operator ∈ filter.SupportedOperators) := by
              simpa using hs
            simp [filter.validateGo, specInvalidFilter, hf, hs, hin.1, hin.2, hre, hex, hcon]
    · have hcon : ¬(f.Operator ∈ filter.SupportedOperators) := by
        simpa using hs
      simp [filter.validateGo, specInvalidFilter, hf, hs, hcon]

/-- C7: construction-time validation returns an error if and only if
some predicate has an empty field, an unsupported operator, an
in/not_in operator with a non-array value, a regex operator with a
non-string or non-compiling value, or an exists operator with a
non-boolean value; every other shape passes. -/
theorem c7_validate_error_iff (filters : List filter.Filter) :
    (∃ msg, filter.Validate filters = .error msg) ↔
      ∃ f ∈ filters, specInvalidFilter f = true := by
  have key : ∀ fs : List filter.Filter,
      (filter.validateGo fs = .ok ()) ↔ ∀ f ∈ fs, specInvalidFilter f = false := by
    intro fs
    induction fs with
    | nil => simp [filter.validateGo]
    | cons f rest ih =>
      rw [validateGo_cons_ok, ih]
      simp
  constructor
  · intro ⟨msg, hmsg⟩
    by_contra hno
    push_neg at hno
    have hok : filter.validateGo filters = .ok () := by
      rw [key]
      intro f hfmem
      rcases hb : specInvalidFilter f with _ | _
      · rfl
      · exact absurd hb (hno f hfmem)
    rw [filter.Validate, hok] at hmsg
    cases hmsg
  · intro ⟨f, hfmem, hbad⟩
    rcases hval : filter.Validate filters with msg | u
    · exact ⟨msg, rfl⟩
    · have := (key filters).mp hval
      rw [this f hfmem] at hbad
      cases hbad

/-- C6: an entry whose record fails to decode is counted as processed,
not matched, not appended to the batch; the stored last-seen network
still advances to that entry, and the loop continues with the next
entry rather than aborting the batch. -/
theorem c6_decode_failure_skips_entry (su : Option Pfx4) (fe : Option filter.Engine)
    (maxResults : Int) (e : iterator.Entry) (rest : List iterator.Entry)
    (st : iterator.IterState)
    (hskip : st.skipping = false) (hrec : e.record = none) :
    iterator.iterLoop su fe maxResults (e :: rest) st =
      iterator.iterLoop su fe maxResults rest
        { st with processed := st.processed + 1, lastNetwork := some e.pfx } := by
  obtain ⟨p, m, ln, res, sk, hmo⟩ := st
  simp only at hskip
  subst hskip
  simp [iterator.iterLoop, iterator.iterBody, hrec]

/-- Concrete instance of the C6 theorem. -/
theorem c6_decode_failure_skips_entry_witness :
    (iterator.IterState.mk 5 2 none [] false false).skipping = false ∧
    (iterator.Entry.mk ⟨1, 0, 0, 0, 24⟩ none).record = none ∧
    iterator.iterLoop none none 10 [⟨⟨1, 0, 0, 0, 24⟩, none⟩] ⟨5, 2, none, [], false, false⟩ =
      iterator.iterLoop none none 10 []
        { iterator.IterState.mk 5 2 none [] false false with
          processed := (5 : Int) + 1
          lastNetwork := some ⟨1, 0, 0, 0, 24⟩ } :=
  ⟨rfl, rfl, c6_decode_failure_skips_entry none none 10 ⟨⟨1, 0, 0, 0, 24⟩, none⟩ []
    ⟨5, 2, none, [], false, false⟩ rfl rfl⟩

/-- One loop-body step under the batch-cap invariant: either the loop
continues with the continuation flag still clear and the batch still
strictly below the cap, or it breaks with the flag set and the batch
exactly at the cap. -/
theorem iterBody_cap (su : Option Pfx4) (fe : Option filter.Engine) (maxResults : Int)
    (e : iterator.Entry) (st : iterator.IterState)
    (hm : st.hasMore = false) (hlen : (st.results.length : Int) < maxResults) :
    (∃ st', iterator.iterBody su fe maxResults e st = (st', true) ∧
        st'.hasMore = false ∧ (st'.results.length : Int) < maxResults) ∨
    (∃ st', iterator.iterBody su fe maxResults e st = (st', false) ∧
        st'.hasMore = true ∧ (st'.results.length : Int) = maxResults) := by
  unfold iterator.iterBody
  by_cases hsk : st.skipping ∧ some e.pfx ≠ su
  · rw [if_pos hsk]
    exact .inl ⟨st, rfl, hm, hlen⟩
  · rw [if_neg hsk]
    cases hrec : e.record with
    | none =>
      exact .inl ⟨_, rfl, hm, hlen⟩
    | some record =>
      dsimp only
      by_cases hb : (match fe with
          | some f => !(f.Matches record)
          | none => false) = true
      · rw [if_pos hb]
        have hge : ¬((st.results.length : Int) ≥ maxResults) := by omega
        rw [if_neg hge]
        exact .inl ⟨_, rfl, hm, hlen⟩
      · rw [if_neg hb]
        by_cases hge : ((st.results ++ [iterator.NetworkResult.mk record e.pfx]).length : Int) ≥ maxResults
        · rw [if_pos hge]
          refine .inr ⟨_, rfl, rfl, ?_⟩
          simp only [List.length_append, List.length_singleton] at hge ⊢
          push_cast at hge ⊢
          omega
        · rw [if_neg hge]
          refine .inl ⟨_, rfl, hm, ?_⟩
          simp only [List.length_append, List.length_singleton] at hge ⊢
          push_cast at hge ⊢
          omega

/-- The pull loop under the batch-cap invariant: the final batch never
exceeds the cap, and the continuation flag is set exactly when the
batch filled to the cap. -/
theorem iterLoop_cap (su : Option Pfx4) (fe : Option filter.Engine) (maxResults : Int)
    (entries : List iterator.Entry) :
    ∀ st : iterator.IterState, st.hasMore = false →
      (st.results.length : Int) < maxResults →
      (((iterator.iterLoop su fe maxResults entries st).results.length : Int) ≤ maxResults ∧
       ((iterator.iterLoop su fe maxResults entries st).hasMore = true ↔
         ((iterator.iterLoop su fe maxResults entries st).results.length : Int) = maxResults)) := by
  induction entries with
  | nil =>
    intro st hm hlen
    refine ⟨by simpa [iterator.iterLoop] using le_of_lt hlen, ?_⟩
    simp only [iterator.iterLoop, hm]
    constructor
    · intro h; cases h
    · intro h; omega
  | cons e rest ih =>
    intro st hm hlen
    rcases iterBody_cap su fe maxResults e st hm hlen with
      ⟨st', heq, hm', hlen'⟩ | ⟨st', heq, hm', hlen'⟩
    · simp only [iterator.iterLoop, heq]
      exact ih st' hm' hlen'
    · simp only [iterator.iterLoop, heq]
      exact ⟨le_of_eq hlen', by simp [hm', hlen']⟩

/-- C2 amended: for every non-nil iterator and strictly positive
maxResults the batch respects the cap, and has_more is true exactly
when the batch filled to the cap — which can happen on the very last
entry of the traversal, with no further yieldable entries remaining. -/
theorem c2_batch_cap (it : iterator.ManagedIterator) (entries : List iterator.Entry)
    (maxResults : Int) (hpos : 0 < maxResults) :
    ∃ r it', iterator.Iterate (some it) entries maxResults = .ok (r, it') ∧
      (r.Results.length : Int) ≤ maxResults ∧
      (r.HasMore = true ↔ (r.Results.length : Int) = maxResults) := by
  have h := iterLoop_cap it.LastNetwork it.FilterEngine maxResults entries
    { processed := it.Processed, matched := it.Matched, lastNetwork := it.LastNetwork,
      results := [], skipping := it.LastNetwork.isSome, hasMore := false }
    rfl (by simpa using hpos)
  exact ⟨_, _, rfl, h.1, h.2⟩

/-- Concrete instance of the C2 amended theorem. -/
theorem c2_batch_cap_witness :
    (0 : Int) < 1 ∧
    (∃ r it', iterator.Iterate
        (some (iterator.CreateIterator "db" ⟨1, 0, 0, 0, 16⟩ [] "and"))
        [⟨⟨1, 0, 0, 0, 24⟩, some [("x", .gstr "v")]⟩] 1 = .ok (r, it') ∧
      (r.Results.length : Int) ≤ 1 ∧
      (r.HasMore = true ↔ (r.Results.length : Int) = 1)) :=
  ⟨by decide, c2_batch_cap (iterator.CreateIterator "db" ⟨1, 0, 0, 0, 16⟩ [] "and")
    [⟨⟨1, 0, 0, 0, 24⟩, some [("x", .gstr "v")]⟩] 1 (by decide)⟩

/-- C2 fails as stated: a traversal with exactly one yieldable entry
and maxResults = 1 fills the batch on the final entry, so has_more
comes back true even though no yieldable entry remains beyond the
batch. -/
theorem c2_counterexample :
    ((iterator.Iterate (some (iterator.CreateIterator "db" ⟨1, 0, 0, 0, 16⟩ [] "and"))
        [⟨⟨1, 0, 0, 0, 24⟩, some [("x", .gstr "v")]⟩] 1).toOption.map
      (fun r => (r.1.HasMore, r.1.Results.length))) = some (true, 1) := rfl

/-- C10: the cap is only checked after an entry is fully processed.
With no resume anchor and maxResults = 0, the first entry with a
decodable record still increments the processed counter, and when it
passes the filter (or no engine is bound) it is appended, so the batch
holds one result exceeding the zero cap. -/
theorem c10_cap_checked_after_processing (it : iterator.ManagedIterator)
    (e : iterator.Entry) (rest : List iterator.Entry) (record : RecordMap)
    (hln : it.LastNetwork = none) (hrec : e.record = some record) :
    ∃ r it', iterator.Iterate (some it) (e :: rest) 0 = .ok (r, it') ∧
      r.TotalProcessed = it.Processed + 1 ∧
      ((match it.FilterEngine with
        | some fe => fe.Matches record
        | none => true) = true → r.Results = [⟨record, e.pfx⟩]) := by
  have hbody : ∀ st : iterator.IterState, st.skipping = false → st.results = [] →
      (iterator.iterBody none it.FilterEngine 0 e st =
        ({ st with
           skipping := false
           processed := st.processed + 1
           lastNetwork := some e.pfx
           hasMore := true }, false) ∧
        (match it.FilterEngine with
          | some fe => fe.Matches record
          | none => true) = false) ∨
      (iterator.iterBody none it.FilterEngine 0 e st =
        ({ st with
           skipping := false
           processed := st.processed + 1
           lastNetwork := some e.pfx
           matched := st.matched + 1
           results := st.results ++ [iterator.NetworkResult.mk record e.pfx]
           hasMore := true }, false) ∧
        (match it.FilterEngine with
          | some fe => fe.Matches record
          | none => true) = true) := by
    intro st hsk hres
    unfold iterator.iterBody
    rw [if_neg (by simp [hsk])]
    rw [hrec]
    dsimp only
    by_cases hb : (match it.FilterEngine with
        | some f => !(f.Matches record)
        | none => false) = true
    · rw [if_pos hb]
      rw [if_pos (by simp [hres])]
      refine .inl ⟨rfl, ?_⟩
      cases hfe : it.FilterEngine with
      | none => rw [hfe] at hb; simp at hb
      | some f => rw [hfe] at hb; simpa using hb
    · rw [if_neg hb]
      rw [if_pos (by simp [hres])]
      refine .inr ⟨rfl, ?_⟩
      cases hfe : it.FilterEngine with
      | none => rfl
      | some f => rw [hfe] at hb; simpa using hb
  simp only [iterator.Iterate, hln]
  dsimp only [Option.isSome]
  rcases hbody
      { processed := it.Processed
        matched := it.Matched
        lastNetwork := none
        results := []
        skipping := false
        hasMore := false } rfl rfl with
    ⟨heq, hmt⟩ | ⟨heq, hmt⟩
  · simp only [iterator.iterLoop, heq]
    refine ⟨_, _, rfl, rfl, ?_⟩
    intro hcontra
    rw [hmt] at hcontra
    cases hcontra
  · simp only [iterator.iterLoop, heq]
    refine ⟨_, _, rfl, rfl, ?_⟩
    intro _
    rfl

/-- Concrete instance of the C10 theorem. -/
theorem c10_cap_checked_after_processing_witness :
    (iterator.CreateIterator "db" ⟨1, 0, 0, 0, 16⟩ [] "and").LastNetwork = none ∧
    (∃ r it', iterator.Iterate
        (some (iterator.CreateIterator "db" ⟨1, 0, 0, 0, 16⟩ [] "and"))
        [⟨⟨1, 0, 0, 0, 24⟩, some [("x", .gstr "v")]⟩] 0 = .ok (r, it') ∧
      r.TotalProcessed = (iterator.CreateIterator "db" ⟨1, 0, 0, 0, 16⟩ [] "and").Processed + 1 ∧
      ((match (iterator.CreateIterator "db" ⟨1, 0, 0, 0, 16⟩ [] "and").FilterEngine with
        | some fe => fe.Matches [("x", .gstr "v")]
        | none => true) = true →
        r.Results = [⟨[("x", .gstr "v")], ⟨1, 0, 0, 0, 24⟩⟩])) :=
  ⟨rfl, c10_cap_checked_after_processing
    (iterator.CreateIterator "db" ⟨1, 0, 0, 0, 16⟩ [] "and")
    ⟨⟨1, 0, 0, 0, 24⟩, some [("x", .gstr "v")]⟩ [] [("x", .gstr "v")] rfl rfl⟩

/-- One loop-body step never decreases either counter, adds at most as
much to matched as to processed, and preserves matched ≤ processed. -/
theorem iterBody_counter_facts (su : Option Pfx4) (fe : Option filter.Engine)
    (maxResults : Int) (e : iterator.Entry) (st : iterator.IterState) :
    st.processed ≤ ((iterator.iterBody su fe maxResults e st).1).processed ∧
    st.matched ≤ ((iterator.iterBody su fe maxResults e st).1).matched ∧
    (st.matched ≤ st.processed →
      ((iterator.iterBody su fe maxResults e st).1).matched ≤
        ((iterator.iterBody su fe maxResults e st).1).processed) := by
  unfold iterator.iterBody
  by_cases hsk : st.skipping ∧ some e.pfx ≠ su
  · rw [if_pos hsk]
    exact ⟨le_refl _, le_refl _, fun h => h⟩
  · rw [if_neg hsk]
    cases hrec : e.record with
    | none =>
      dsimp only
      exact ⟨by omega, le_refl _, fun h => by omega⟩
    | some record =>
      dsimp only
      by_cases hb : (match fe with
          | some f => !(f.Matches record)
          | none => false) = true
      · rw [if_pos hb]
        by_cases hge : (st.results.length : Int) ≥ maxResults
        · rw [if_pos hge]
          exact ⟨by dsimp only; omega, le_refl _, fun h => by dsimp only; omega⟩
        · rw [if_neg hge]
          exact ⟨by dsimp only; omega, le_refl _, fun h => by dsimp only; omega⟩
      · rw [if_neg hb]
        by_cases hge : ((st.results ++ [iterator.NetworkResult.mk record e.pfx]).length : Int) ≥
            maxResults
        · rw [if_pos hge]
          exact ⟨by dsimp only; omega, by dsimp only; omega, fun h => by dsimp only; omega⟩
        · rw [if_neg hge]
          exact ⟨by dsimp only; omega, by dsimp only; omega, fun h => by dsimp only; omega⟩

/-- The pull loop never decreases either counter and preserves
matched ≤ processed. -/
theorem iterLoop_counter_facts (su : Option Pfx4) (fe : Option filter.Engine)
    (maxResults : Int) (entries : List iterator.Entry) :
    ∀ st : iterator.IterState,
      st.processed ≤ (iterator.iterLoop su fe maxResults entries st).processed ∧
      st.matched ≤ (iterator.iterLoop su fe maxResults entries st).matched ∧
      (st.matched ≤ st.processed →
        (iterator.iterLoop su fe maxResults entries st).matched ≤
          (iterator.iterLoop su fe maxResults entries st).processed) := by
  induction entries with
  | nil =>
    intro st
    exact ⟨le_refl _, le_refl _, fun h => h⟩
  | cons e rest ih =>
    intro st
    have hb := iterBody_counter_facts su fe maxResults e st
    rcases hbody : iterator.iterBody su fe maxResults e st with ⟨st', cont⟩
    rw [hbody] at hb
    cases cont with
    | true =>
      have hrec := ih st'
      simp only [iterator.iterLoop, hbody]
      exact ⟨le_trans hb.1 hrec.1, le_trans hb.2.1 hrec.2.1,
        fun h => hrec.2.2 (hb.2.2 h)⟩
    | false =>
      simp only [iterator.iterLoop, hbody]
      exact hb

/-- `Iterate` on a live iterator always succeeds, never decreases the
counters and preserves matched ≤ processed. -/
theorem Iterate_counter_facts (it : iterator.ManagedIterator)
    (entries : List iterator.Entry) (maxResults : Int) :
    ∃ r it', iterator.Iterate (some it) entries maxResults = .ok (r, it') ∧
      it.Processed ≤ it'.Processed ∧ it.Matched ≤ it'.Matched ∧
      (it.Matched ≤ it.Processed → it'.Matched ≤ it'.Processed) := by
  have h := iterLoop_counter_facts it.LastNetwork it.FilterEngine maxResults entries
    { processed := it.Processed, matched := it.Matched, lastNetwork := it.LastNetwork,
      results := [], skipping := it.LastNetwork.isSome, hasMore := false }
  exact ⟨_, _, rfl, h.1, h.2.1, h.2.2⟩

/-- A sequence of `Iterate` calls (entry list and result cap per call)
against one iterator, returning every iterator state reached, starting
state first.  Each call's entry list models what the traversal yields
on that call. -/
def runIterates : iterator.ManagedIterator → List (List iterator.Entry × Int) →
    List iterator.ManagedIterator
  | it, [] => [it]
  | it, (entries, maxResults) :: calls =>
    match iterator.Iterate (some it) entries maxResults with
    | .ok (_, it') => it :: runIterates it' calls
    | .error _ => [it]

theorem runIterates_cons_shape (it : iterator.ManagedIterator)
    (calls : List (List iterator.Entry × Int)) :
    ∃ tl, runIterates it calls = it :: tl := by
  cases calls with
  | nil => exact ⟨[], rfl⟩
  | cons c calls =>
    obtain ⟨entries, maxResults⟩ := c
    rcases heq : iterator.Iterate (some it) entries maxResults with msg | ⟨r, it'⟩
    · exact ⟨[], by simp [runIterates, heq]⟩
    · exact ⟨runIterates it' calls, by simp [runIterates, heq]⟩

theorem runIterates_facts (calls : List (List iterator.Entry × Int)) :
    ∀ it : iterator.ManagedIterator, it.Matched ≤ it.Processed →
      (∀ j ∈ runIterates it calls, j.Matched ≤ j.Processed) ∧
      List.Chain' (fun a b : iterator.ManagedIterator =>
        a.Processed ≤ b.Processed ∧ a.Matched ≤ b.Matched) (runIterates it calls) := by
  induction calls with
  | nil =>
    intro it h
    refine ⟨?_, ?_⟩
    · intro j hj
      simp only [runIterates, List.mem_singleton] at hj
      subst hj
      exact h
    · simp [runIterates]
  | cons c calls ih =>
    intro it h
    obtain ⟨entries, maxResults⟩ := c
    obtain ⟨r, it', heq, hp, hmn, hinv⟩ := Iterate_counter_facts it entries maxResults
    have hrest := ih it' (hinv h)
    obtain ⟨tl, htl⟩ := runIterates_cons_shape it' calls
    simp only [runIterates, heq]
    refine ⟨?_, ?_⟩
    · intro j hj
      rcases List.mem_cons.mp hj with rfl | hj'
      · exact h
      · exact hrest.1 j hj'
    · rw [htl]
      rw [htl] at hrest
      exact List.Chain'.cons ⟨hp, hmn⟩ hrest.2

/-- C8: starting from `CreateIterator` (both counters zero), along any
sequence of `Iterate` calls every reached iterator state satisfies
Matched ≤ Processed, and neither counter ever decreases from one state
to the next. -/
theorem c8_counters_invariant (database : String) (network : Pfx4)
    (filters : List filter.Filter) (filterMode : String)
    (calls : List (List iterator.Entry × Int)) :
    (∀ j ∈ runIterates (iterator.CreateIterator database network filters filterMode) calls,
        j.Matched ≤ j.Processed) ∧
    List.Chain' (fun a b : iterator.ManagedIterator =>
      a.Processed ≤ b.Processed ∧ a.Matched ≤ b.Matched)
      (runIterates (iterator.CreateIterator database network filters filterMode) calls) :=
  runIterates_facts calls _ (le_refl 0)

/-- While the resume-skip flag is set, every entry whose prefix differs
from the anchor is passed over without processing. -/
theorem iterLoop_skips_before_anchor (N : Pfx4) (fe : Option filter.Engine)
    (maxResults : Int) (pre rest : List iterator.Entry) (st : iterator.IterState)
    (hskip : st.skipping = true) (hpre : ∀ e ∈ pre, e.pfx ≠ N) :
    iterator.iterLoop (some N) fe maxResults (pre ++ rest) st =
      iterator.iterLoop (some N) fe maxResults rest st := by
  induction pre with
  | nil => rfl
  | cons e pre ih =>
    have hne : e.pfx ≠ N := hpre e (List.mem_cons_self _ _)
    have hbody : iterator.iterBody (some N) fe maxResults e st = (st, true) := by
      unfold iterator.iterBody
      rw [if_pos ⟨by rw [hskip], by simpa using hne⟩]
    simp only [List.cons_append, iterator.iterLoop, hbody]
    exact ih (fun e' he' => hpre e' (List.mem_cons_of_mem _ he'))

/-- C1 amended: resuming from an anchor N, the loop passes over the
entries strictly before N without processing them, then re-processes
the anchor itself — N is counted as processed and matched again and
re-emitted into the batch (here with no filter engine bound, a
decodable anchor, and the batch still below the cap) — before the
traversal continues with the entries after N. -/
theorem c1_resume_reprocesses_anchor (N : Pfx4) (fe : Option filter.Engine)
    (maxResults : Int) (pre : List iterator.Entry) (eN : iterator.Entry)
    (post : List iterator.Entry) (st : iterator.IterState) (recN : RecordMap)
    (hskip : st.skipping = true)
    (hpre : ∀ e ∈ pre, e.pfx ≠ N)
    (hN : eN.pfx = N) (hrecN : eN.record = some recN)
    (hfe : fe = none)
    (hcap : (st.results.length : Int) + 1 < maxResults) :
    iterator.iterLoop (some N) fe maxResults (pre ++ eN :: post) st =
      iterator.iterLoop (some N) fe maxResults post
        { st with
          skipping := false
          processed := st.processed + 1
          matched := st.matched + 1
          lastNetwork := some eN.pfx
          results := st.results ++ [⟨recN, eN.pfx⟩] } := by
  rw [iterLoop_skips_before_anchor N fe maxResults pre (eN :: post) st hskip hpre]
  subst hfe
  have hbody : iterator.iterBody (some N) none maxResults eN st =
      ({ st with
         skipping := false
         processed := st.processed + 1
         matched := st.matched + 1
         lastNetwork := some eN.pfx
         results := st.results ++ [⟨recN, eN.pfx⟩] }, true) := by
    unfold iterator.iterBody
    rw [if_neg (by simp [hN])]
    rw [hrecN]
    dsimp only
    rw [if_neg (by simp)]
    rw [if_neg (by simp only [List.length_append, List.length_singleton]; push_cast; omega)]
  simp only [iterator.iterLoop, hbody]

/-- Concrete instance of the C1 amended theorem. -/
theorem c1_resume_reprocesses_anchor_witness :
    (iterator.IterState.mk 5 2 (some ⟨1, 0, 0, 0, 24⟩) [] true false).skipping = true ∧
    iterator.iterLoop (some ⟨1, 0, 0, 0, 24⟩) none 10
        [⟨⟨1, 0, 0, 0, 23⟩, some []⟩, ⟨⟨1, 0, 0, 0, 24⟩, some [("x", .gstr "v")]⟩,
         ⟨⟨1, 0, 1, 0, 24⟩, some []⟩]
        ⟨5, 2, some ⟨1, 0, 0, 0, 24⟩, [], true, false⟩ =
      iterator.iterLoop (some ⟨1, 0, 0, 0, 24⟩) none 10 [⟨⟨1, 0, 1, 0, 24⟩, some []⟩]
        { iterator.IterState.mk 5 2 (some ⟨1, 0, 0, 0, 24⟩) [] true false with
          skipping := false
          processed := (5 : Int) + 1
          matched := (2 : Int) + 1
          lastNetwork := some (iterator.Entry.mk ⟨1, 0, 0, 0, 24⟩ (some [("x", .gstr "v")])).pfx
          results := [] ++ [⟨[("x", .gstr "v")],
            (iterator.Entry.mk ⟨1, 0, 0, 0, 24⟩ (some [("x", .gstr "v")])).pfx⟩] } :=
  ⟨rfl, c1_resume_reprocesses_anchor ⟨1, 0, 0, 0, 24⟩ none 10
    [⟨⟨1, 0, 0, 0, 23⟩, some []⟩] ⟨⟨1, 0, 0, 0, 24⟩, some [("x", .gstr "v")]⟩
    [⟨⟨1, 0, 1, 0, 24⟩, some []⟩] ⟨5, 2, some ⟨1, 0, 0, 0, 24⟩, [], true, false⟩
    [("x", .gstr "v")] rfl
    (by intro e he; simp only [List.mem_singleton] at he; subst he; decide)
    rfl rfl rfl (by decide)⟩

/-- C1 fails as stated: resuming from a token whose last-seen network
is N = 1.0.0.0/24 over a traversal [N, M], the next Iterate re-emits N
as the first result and increments processed and matched for N again
(processed goes from 5 to 7 over two entries, matched from 2 to 4). -/
theorem c1_counterexample :
    ((iterator.ResumeIterator
        { LastNetwork := "1.0.0.0/24", Database := "db", Network := "1.0.0.0/16",
          FilterMode := "and", Filters := [], Processed := 5, Matched := 2 }).toOption.bind
      (fun it => (iterator.Iterate (some it)
        [⟨⟨1, 0, 0, 0, 24⟩, some [("x", .gstr "v")]⟩,
         ⟨⟨1, 0, 1, 0, 24⟩, some [("y", .gstr "w")]⟩] 10).toOption)).map
      (fun r => (r.1.Results.map iterator.NetworkResult.Network,
                 r.1.TotalProcessed, r.1.TotalMatched)) =
      some ([⟨1, 0, 0, 0, 24⟩, ⟨1, 0, 1, 0, 24⟩], 7, 4) := rfl

/-- The rendered form of a prefix is never the empty string (so the
token's last-network field is non-empty exactly when an anchor was
stored). -/
theorem render_ne_empty (p : Pfx4) : p.render ≠ "" := by
  intro h
  have hdata : p.renderChars = [] := congrArg String.data h
  simp [Pfx4.renderChars] at hdata

/-- `createIteratorNoStart` keeps an already-normalized filter list
unchanged. -/
theorem createIteratorNoStart_filters (db : String) (nw : Pfx4)
    (filters : List filter.Filter) (fm : String)
    (hops : ∀ f ∈ filters, iterator.normalizeOperator f.Operator = f.Operator) :
    (iterator.createIteratorNoStart db nw filters fm).Filters = filters := by
  show (if filters.length > 0 then
      filters.map (fun f => { f with Operator := iterator.normalizeOperator f.Operator })
    else filters) = filters
  by_cases hl : filters.length > 0
  · rw [if_pos hl]
    have hmap : filters.map
        (fun f => { f with Operator := iterator.normalizeOperator f.Operator }) =
        filters.map id := by
      apply List.map_congr_left
      intro f hf
      obtain ⟨V, F, O⟩ := f
      show (⟨V, F, iterator.normalizeOperator O⟩ : filter.Filter) = _
      rw [show iterator.normalizeOperator O = O from hops _ hf]
      rfl
    rw [hmap, List.map_id]
  · rw [if_neg hl]

/-- The logical state of an iterator as the round-trip claim compares
it: database, network, predicates, combination mode, processed,
matched, last-seen network. -/
def logicalState (it : iterator.ManagedIterator) :
    String × Pfx4 × List filter.Filter × String × Int × Int × Option Pfx4 :=
  (it.Database, it.Network, it.Filters, it.FilterMode, it.Processed, it.Matched, it.LastNetwork)

/-- Iterator states as the manager produces them: valid network, valid
anchor when one is stored, normalized combination mode, normalized
operators. -/
def WellFormed (it : iterator.ManagedIterator) : Prop :=
  it.Network.Valid ∧
  (∀ p, it.LastNetwork = some p → p.Valid) ∧
  (it.FilterMode = filter.ModeAnd ∨ it.FilterMode = filter.ModeOr) ∧
  (∀ f ∈ it.Filters, iterator.normalizeOperator f.Operator = f.Operator)

/-- The iterator that decoding a well-formed state's token rebuilds:
a fresh creation with the counters and anchor restored. -/
def restoredIterator (it : iterator.ManagedIterator) (ln : Option Pfx4) :
    iterator.ManagedIterator :=
  { iterator.createIteratorNoStart it.Database it.Network it.Filters it.FilterMode with
    Processed := it.Processed
    Matched := it.Matched
    LastNetwork := ln }

/-- Decoding the token generated from a well-formed iterator state
succeeds and reproduces the same logical state, again well-formed. -/
theorem resume_generateResumeToken (it : iterator.ManagedIterator) (h : WellFormed it) :
    ∃ it1, iterator.ResumeIterator (iterator.generateResumeToken it) = .ok it1 ∧
      logicalState it1 = logicalState it ∧ WellFormed it1 := by
  obtain ⟨hnet, hln, hmode, hops⟩ := h
  have hmode' : iterator.normalizeFilterMode it.FilterMode = it.FilterMode := by
    rcases hmode with h1 | h1 <;> rw [h1] <;> rfl
  have hfil : (iterator.createIteratorNoStart it.Database it.Network it.Filters
      it.FilterMode).Filters = it.Filters :=
    createIteratorNoStart_filters _ _ _ _ hops
  have hstate : ∀ ln : Option Pfx4, ln = it.LastNetwork →
      logicalState (restoredIterator it ln) = logicalState it := by
    intro ln hlneq
    show (it.Database, it.Network,
        (iterator.createIteratorNoStart it.Database it.Network it.Filters it.FilterMode).Filters,
        iterator.normalizeFilterMode it.FilterMode, it.Processed, it.Matched, ln) =
      (it.Database, it.Network, it.Filters, it.FilterMode, it.Processed, it.Matched,
        it.LastNetwork)
    rw [hfil, hmode', hlneq]
  have hwf : ∀ ln : Option Pfx4, (∀ q, ln = some q → q.Valid) →
      WellFormed (restoredIterator it ln) := by
    intro ln hlnv
    refine ⟨hnet, hlnv, ?_, ?_⟩
    · show iterator.normalizeFilterMode it.FilterMode = filter.ModeAnd ∨
        iterator.normalizeFilterMode it.FilterMode = filter.ModeOr
      rw [hmode']
      exact hmode
    · intro f hf
      have hf' : f ∈ (iterator.createIteratorNoStart it.Database it.Network it.Filters
          it.FilterMode).Filters := hf
      rw [hfil] at hf'
      exact hops f hf'
  rcases hl : it.LastNetwork with _ | p
  · refine ⟨restoredIterator it none, ?_, hstate none hl.symm, hwf none ?_⟩
    · simp only [iterator.ResumeIterator, iterator.generateResumeToken, hl]
      rw [parsePfx_render hnet]
      dsimp only
      rw [if_neg (show ¬("" ≠ "") by simp)]
      rfl
    · intro q hq
      cases hq
  · have hpv : p.Valid := hln p hl
    refine ⟨restoredIterator it (some p), ?_, hstate (some p) hl.symm, hwf (some p) ?_⟩
    · simp only [iterator.ResumeIterator, iterator.generateResumeToken, hl]
      rw [parsePfx_render hnet]
      dsimp only
      rw [if_pos (render_ne_empty p)]
      rw [parsePfx_render hpv]
      rfl
    · intro q hq
      cases hq
      exact hpv

/-- C3: for a token produced by encoding a (manager-produced,
well-formed) iterator state, decoding it via ResumeIterator and
re-encoding the resulting iterator's state yields a token that decodes
to the same logical state: same database, network, predicates,
combination mode, processed, matched and last-seen network. -/
theorem c3_resume_roundtrip (it : iterator.ManagedIterator) (h : WellFormed it) :
    ∃ it1 it2,
      iterator.ResumeIterator (iterator.generateResumeToken it) = .ok it1 ∧
      iterator.ResumeIterator (iterator.generateResumeToken it1) = .ok it2 ∧
      logicalState it1 = logicalState it ∧
      logicalState it2 = logicalState it := by
  obtain ⟨it1, h1, heq1, hw1⟩ := resume_generateResumeToken it h
  obtain ⟨it2, h2, heq2, _⟩ := resume_generateResumeToken it1 hw1
  exact ⟨it1, it2, h1, h2, heq1, heq2.trans heq1⟩

/-- A concrete well-formed iterator state for the C3 witness. -/
def c3it : iterator.ManagedIterator :=
  { iterator.createIteratorNoStart "GeoLite2-City" ⟨1, 0, 0, 0, 16⟩
      [{ Value := .gstr "US", Field := "country.iso_code", Operator := "equals" }] "or" with
    Processed := 5
    Matched := 2
    LastNetwork := some ⟨1, 0, 0, 0, 24⟩ }

/-- Concrete instance of the C3 round-trip theorem. -/
theorem c3_resume_roundtrip_witness :
    WellFormed c3it ∧
    (∃ it1 it2,
      iterator.ResumeIterator (iterator.generateResumeToken c3it) = .ok it1 ∧
      iterator.ResumeIterator (iterator.generateResumeToken it1) = .ok it2 ∧
      logicalState it1 = logicalState c3it ∧
      logicalState it2 = logicalState c3it) :=
  ⟨⟨by decide, fun p hp => by cases hp; decide, Or.inr rfl, by decide⟩,
   c3_resume_roundtrip c3it
     ⟨by decide, fun p hp => by cases hp; decide, Or.inr rfl, by decide⟩⟩

/-- A predicate whose operator is unsupported never matches (the match
falls through to the default branch). -/
theorem evaluateFilter_unsupported (f : filter.Filter) (data : RecordMap)
    (h : filter.SupportedOperators.contains f.Operator = false) :
    filter.evaluateFilter f data = false := by
  unfold filter.evaluateFilter
  split
  all_goals
    first
    | rfl
    | (rename_i heq; rw [heq] at h; simp [filter.SupportedOperators] at h)

/-- A regex predicate whose pattern does not compile never matches,
whatever the field value is. -/
theorem matchesRegex_noncompile (s : String) (h : regexpCompileOk s = false) (fv : GoVal) :
    filter.matchesRegex fv (.gstr s) = false := by
  cases fv <;> simp [filter.matchesRegex, h]

/-- C9 amended: ResumeIterator performs no predicate validation — every
well-formed token with parseable CIDR fields resumes successfully, with
any filter list whatsoever; a predicate whose operator is unsupported
(after alias normalization) and a regex predicate whose pattern does
not compile then evaluate to non-match on every record; but other
validation-failing predicates can still match (see the
counterexample). -/
theorem c9_resume_skips_validation (token : iterator.ResumeToken) (n : Pfx4)
    (hnet : parsePfx token.Network = some n)
    (hln : token.LastNetwork = "" ∨ ∃ p, parsePfx token.LastNetwork = some p) :
    (∃ it, iterator.ResumeIterator token = .ok it) ∧
    (∀ (f : filter.Filter) (data : RecordMap),
      filter.SupportedOperators.contains f.Operator = false →
      filter.evaluateFilter f data = false) ∧
    (∀ (f : filter.Filter) (s : String) (data : RecordMap),
      f.Operator = "regex" → f.Value = .gstr s → regexpCompileOk s = false →
      filter.evaluateFilter f data = false) := by
  refine ⟨?_, ?_, ?_⟩
  · unfold iterator.ResumeIterator
    rw [hnet]
    dsimp only
    by_cases hEmpty : token.LastNetwork = ""
    · rw [if_neg (by simp [hEmpty])]
      exact ⟨_, rfl⟩
    · rw [if_pos hEmpty]
      rcases hln with h1 | ⟨p, hp⟩
      · exact absurd h1 hEmpty
      · rw [hp]
        exact ⟨_, rfl⟩
  · intro f data h
    exact evaluateFilter_unsupported f data h
  · intro f s data hop hv h
    obtain ⟨V, F, O⟩ := f
    simp only at hop hv
    subst hop
    subst hv
    show filter.matchesRegex (filter.getNestedField data F) (.gstr s) = false
    exact matchesRegex_noncompile s h _

/-- Concrete instance of the C9 amended theorem. -/
theorem c9_resume_skips_validation_witness :
    parsePfx "1.0.0.0/16" = some ⟨1, 0, 0, 0, 16⟩ ∧
    (∃ it, iterator.ResumeIterator
      { LastNetwork := "", Database := "db", Network := "1.0.0.0/16", FilterMode := "and",
        Filters := [{ Value := .gstr "x", Field := "f", Operator := "foo" }],
        Processed := 0, Matched := 0 } = .ok it) ∧
    (∀ (f : filter.Filter) (data : RecordMap),
      filter.SupportedOperators.contains f.Operator = false →
      filter.evaluateFilter f data = false) ∧
    (∀ (f : filter.Filter) (s : String) (data : RecordMap),
      f.Operator = "regex" → f.Value = .gstr s → regexpCompileOk s = false →
      filter.evaluateFilter f data = false) :=
  ⟨rfl, (c9_resume_skips_validation
      { LastNetwork := "", Database := "db", Network := "1.0.0.0/16", FilterMode := "and",
        Filters := [{ Value := .gstr "x", Field := "f", Operator := "foo" }],
        Processed := 0, Matched := 0 } ⟨1, 0, 0, 0, 16⟩ rfl (Or.inl rfl)).1,
    (c9_resume_skips_validation
      { LastNetwork := "", Database := "db", Network := "1.0.0.0/16", FilterMode := "and",
        Filters := [{ Value := .gstr "x", Field := "f", Operator := "foo" }],
        Processed := 0, Matched := 0 } ⟨1, 0, 0, 0, 16⟩ rfl (Or.inl rfl)).2.1,
    (c9_resume_skips_validation
      { LastNetwork := "", Database := "db", Network := "1.0.0.0/16", FilterMode := "and",
        Filters := [{ Value := .gstr "x", Field := "f", Operator := "foo" }],
        Processed := 0, Matched := 0 } ⟨1, 0, 0, 0, 16⟩ rfl (Or.inl rfl)).2.2⟩

/-- C9 fails as stated: a token whose only filter uses not_in with a
non-array value fails construction-time validation, yet ResumeIterator
accepts it, and the resulting predicate then matches (rather than
non-matches) every record — here the record [("a", "b")]. -/
theorem c9_counterexample :
    (∃ msg, filter.Validate
      [{ Value := .gstr "x", Field := "f", Operator := "not_in" }] = .error msg) ∧
    ((iterator.ResumeIterator
        { LastNetwork := "", Database := "db", Network := "1.0.0.0/16", FilterMode := "and",
          Filters := [{ Value := .gstr "x", Field := "f", Operator := "not_in" }],
          Processed := 0, Matched := 0 }).toOption.map
      (fun it => match it.FilterEngine with
        | some fe => fe.Matches [("a", .gstr "b")]
        | none => false)) = some true :=
  ⟨⟨"operator requires an array value", rfl⟩, rfl⟩
